import Mathlib

/-
Verification of git-checkout-ago (src/main.rs) against its specification.

Strings are modelled as `List Char` (Rust `&str`/`String` as sequences of
Unicode scalar values).  Byte-level concerns (UTF-8 indices in
`str::split_at`) are modelled separately via `utf8Len` / `byteSplitIdx`.
External processes (the three git invocations) are modelled by an oracle
structure `Git` supplying each invocation's exit status and captured
output, and `run` additionally returns the ordered trace of external
invocations and printed lines.
-/

namespace CheckoutAgo

/-- Rust `char::is_ascii_digit`: the character is one of `0`..`9`
(code points 0x30..0x39). -/
def isAsciiDigit (c : Char) : Bool :=
  0x30 ≤ c.toNat && c.toNat ≤ 0x39

/-- Rust `char::is_whitespace`: the Unicode `White_Space` property,
written out as the explicit list of code points / ranges. -/
def isRustWhitespace (c : Char) : Bool :=
  (0x9 ≤ c.toNat && c.toNat ≤ 0xD) || c.toNat == 0x20 || c.toNat == 0x85 ||
  c.toNat == 0xA0 || c.toNat == 0x1680 ||
  (0x2000 ≤ c.toNat && c.toNat ≤ 0x200A) || c.toNat == 0x2028 ||
  c.toNat == 0x2029 || c.toNat == 0x202F || c.toNat == 0x205F ||
  c.toNat == 0x3000

/-- Drop leading whitespace (`str::trim_start`). -/
def trimLeft (l : List Char) : List Char :=
  l.dropWhile isRustWhitespace

/-- Drop trailing whitespace (`str::trim_end`). -/
def trimRight (l : List Char) : List Char :=
  (l.reverse.dropWhile isRustWhitespace).reverse

/-- Rust `str::trim`: drop leading and trailing whitespace. -/
def trim (l : List Char) : List Char :=
  trimRight (trimLeft l)

/-- The `match unit` expression of `normalize_ago` (src/main.rs:51-58):
a chain of equality tests of the unit string against the five
single-letter codes, `none` standing for the fall-through arm. -/
def expand_unit (u : List Char) : Option (List Char) :=
  if u = "s".data then some "seconds".data
  else if u = "m".data then some "minutes".data
  else if u = "h".data then some "hours".data
  else if u = "d".data then some "days".data
  else if u = "w".data then some "weeks".data
  else none

/-- `normalize_ago` (src/main.rs:34-61).  The Rust code splits the trimmed
input at the byte index of the first non-ASCII-digit character; since
every preceding character is a one-byte ASCII digit, that split is exactly
`takeWhile` / `dropWhile` on the character sequence (the byte-index view is
treated by `byteSplitIdx` below). -/
def normalize_ago (input0 : List Char) : List Char :=
  let input := trim input0
  if input = [] then input
  else
    let number := input.takeWhile isAsciiDigit
    let unit := input.dropWhile isAsciiDigit
    if number = [] ∨ unit = [] then input
    else
      match expand_unit unit with
      | some ex => number ++ ' ' :: ex
      | none => input

/-- `rev_list_args` (src/main.rs:63-74). -/
def rev_list_args (ago : List Char) : List (List Char) :=
  let a := normalize_ago ago
  ["rev-list".data, "-n".data, "1".data, "--before=".data ++ a ++ " ago".data,
   "HEAD".data]

/-- `checkout_args` (src/main.rs:76-79). -/
def checkout_args (commit : List Char) : List (List Char) :=
  ["checkout".data, commit]

/-- UTF-8 byte length of a character sequence. -/
def utf8Len (l : List Char) : Nat :=
  (l.map Char.utf8Size).sum

/-- The byte index computed at src/main.rs:41-45:
`input.find(|c| !c.is_ascii_digit()).unwrap_or(input.len())`, i.e. the
byte offset of the first non-ASCII-digit character, or the total byte
length when every character is an ASCII digit. -/
def byteSplitIdx : List Char → Nat
  | [] => 0
  | c :: t => if isAsciiDigit c then c.utf8Size + byteSplitIdx t else 0

/-- A byte index is a character boundary of `l` when it is the byte
length of some prefix of `l` (Rust `str::is_char_boundary`). -/
def isCharBoundary (l : List Char) (i : Nat) : Prop :=
  ∃ p s, l = p ++ s ∧ utf8Len p = i

/-- Result of one external invocation whose output is captured
(`Command::output`): exit status, and the decoded stdout text — `none`
models stdout bytes that are not valid UTF-8 (`String::from_utf8` fails). -/
structure CmdOutput where
  success : Bool
  stdout : Option (List Char)

/-- Oracle for the three git invocations made by the program.  Spawn
failures (`io::Error` from `Command` itself) are outside the model: the
claims all condition on the invocations actually running. -/
structure Git where
  revParse : CmdOutput
  revList : List (List Char) → CmdOutput
  checkoutOk : List (List Char) → Bool

/-- Observable step of `run`: an external invocation, or one line printed
to stdout (`println!()` with no text is `printLine []`). -/
inductive Event where
  | execRevParse : Event
  | execRevList : List (List Char) → Event
  | execCheckout : List (List Char) → Event
  | printLine : List Char → Event
deriving DecidableEq

/-- Error taxonomy of `run`, one constructor per early-return site.
`decodeFailed` is the `?` on `String::from_utf8`. -/
inductive RunError where
  | revParseFailed : RunError
  | revListFailed : RunError
  | decodeFailed : RunError
  | notFound : RunError
  | checkoutFailed : RunError
deriving DecidableEq

/-- Diagnostic text of each error, from the string literals in
src/main.rs (the `decodeFailed` text comes from the standard library's
`FromUtf8Error` display and is not fixed by the source; no claim
depends on it). -/
def errMsg : RunError → List Char
  | .revParseFailed => "git rev-parse failed".data
  | .revListFailed => "git rev-list failed".data
  | .decodeFailed => "invalid utf-8 sequence".data
  | .notFound => "no commit found before the given time".data
  | .checkoutFailed => "git checkout failed".data

/-- `current_head` (src/main.rs:22-30): run `git rev-parse HEAD`, require
success, decode, trim. -/
def current_head (git : Git) : Except RunError (List Char) :=
  if !git.revParse.success then .error .revParseFailed
  else
    match git.revParse.stdout with
    | none => .error .decodeFailed
    | some s => .ok (trim s)

/-- `run` (src/main.rs:82-114), returning the result together with the
ordered trace of external invocations and printed lines. -/
def run (git : Git) (ago : List Char) (printOnly : Bool) :
    Except RunError Unit × List Event :=
  match current_head git with
  | .error e => (.error e, [.execRevParse])
  | .ok originalHead =>
    let revArgs := rev_list_args ago
    let out := git.revList revArgs
    let ev1 : List Event := [.execRevParse, .execRevList revArgs]
    if !out.success then (.error .revListFailed, ev1)
    else
      match out.stdout with
      | none => (.error .decodeFailed, ev1)
      | some raw =>
        let target := trim raw
        if target = [] then (.error .notFound, ev1)
        else
          let ev2 := ev1 ++
            [.printLine ("Current HEAD: ".data ++ originalHead),
             .printLine ("Target commit: ".data ++ target),
             .printLine ("To return: git checkout ".data ++ originalHead)]
          if printOnly then (.ok (), ev2)
          else
            let ev3 := ev2 ++
              [.printLine [], .execCheckout (checkout_args target)]
            if git.checkoutOk (checkout_args target) then (.ok (), ev3)
            else (.error .checkoutFailed, ev3)

/-- `main` (src/main.rs:116-123): exit code and the diagnostic line (with
its `error: ` prefix) printed to stderr, if any. -/
def mainExit (git : Git) (ago : List Char) (printOnly : Bool) :
    Nat × Option (List Char) :=
  match (run git ago printOnly).1 with
  | .ok _ => (0, none)
  | .error e => (1, some ("error: ".data ++ errMsg e))

/-- Concrete oracle: both captures succeed but the lookup output is empty
(no commit before the requested time). -/
def gitEmptyLookup : Git :=
  ⟨⟨true, some "abc".data⟩, fun _ => ⟨true, some []⟩, fun _ => true⟩

/-- Concrete oracle: captures succeed, the lookup returns a commit, and
checkout succeeds. -/
def gitFound : Git :=
  ⟨⟨true, some "abc".data⟩, fun _ => ⟨true, some "def0".data⟩, fun _ => true⟩

/-- Concrete oracle: captures succeed and the lookup returns a commit,
but the checkout invocation exits non-zero. -/
def gitCheckoutFails : Git :=
  ⟨⟨true, some "abc".data⟩, fun _ => ⟨true, some "def0".data⟩, fun _ => false⟩

/-! Helper lemmas about `dropWhile`, `takeWhile` and `trim`. -/

theorem dropWhile_cons_of_neg {α : Type} {p : α → Bool} {c : α} {t : List α}
    (h : p c = false) : (c :: t).dropWhile p = c :: t := by
  simp [List.dropWhile_cons, h]

theorem dropWhile_eq_self_of_all {α : Type} {p : α → Bool} {l : List α}
    (h : ∀ c ∈ l, p c = false) : l.dropWhile p = l := by
  cases l with
  | nil => rfl
  | cons c t => exact dropWhile_cons_of_neg (h c (List.mem_cons_self c t))

theorem takeWhile_append_all {α : Type} {p : α → Bool} {l1 l2 : List α}
    (h : ∀ c ∈ l1, p c = true) :
    (l1 ++ l2).takeWhile p = l1 ++ l2.takeWhile p := by
  induction l1 with
  | nil => rfl
  | cons c t ih =>
    rw [List.cons_append, List.takeWhile_cons, if_pos (h c (List.mem_cons_self c t)),
      List.cons_append, ih (fun x hx => h x (List.mem_cons_of_mem c hx))]

theorem dropWhile_append_all {α : Type} {p : α → Bool} {l1 l2 : List α}
    (h : ∀ c ∈ l1, p c = true) :
    (l1 ++ l2).dropWhile p = l2.dropWhile p := by
  induction l1 with
  | nil => rfl
  | cons c t ih =>
    rw [List.cons_append, List.dropWhile_cons, if_pos (h c (List.mem_cons_self c t))]
    exact ih (fun x hx => h x (List.mem_cons_of_mem c hx))

theorem head_false_of_dropWhile {α : Type} {p : α → Bool} {l : List α} {c : α}
    {t : List α} (h : l.dropWhile p = c :: t) : p c = false := by
  induction l with
  | nil => simp at h
  | cons a r ih =>
    rw [List.dropWhile_cons] at h
    by_cases hp : p a = true
    · rw [if_pos hp] at h
      exact ih h
    · rw [if_neg hp] at h
      obtain ⟨h1, h2⟩ := List.cons.inj h
      subst h1
      exact Bool.eq_false_iff.mpr hp

theorem digit_not_ws {c : Char} (h : isAsciiDigit c = true) :
    isRustWhitespace c = false := by
  simp only [isAsciiDigit, Bool.and_eq_true, decide_eq_true_eq] at h
  simp only [isRustWhitespace]
  simp only [Bool.or_eq_false_iff, Bool.and_eq_false_iff, decide_eq_false_iff_not,
    Nat.not_le, beq_eq_false_iff_ne, ne_eq]
  omega

theorem trimLeft_cons_of_neg {c : Char} {t : List Char}
    (h : isRustWhitespace c = false) : trimLeft (c :: t) = c :: t :=
  dropWhile_cons_of_neg h

theorem trimRight_of_reverse_cons {l : List Char} {c : Char} {t : List Char}
    (h : l.reverse = c :: t) (hc : isRustWhitespace c = false) :
    trimRight l = l := by
  unfold trimRight
  rw [h, dropWhile_cons_of_neg hc, ← h, List.reverse_reverse]

theorem trimRight_snoc (m : List Char) (d : Char)
    (hd : isRustWhitespace d = false) : trimRight (m ++ [d]) = m ++ [d] := by
  unfold trimRight
  rw [List.reverse_append, List.reverse_singleton, List.singleton_append,
    dropWhile_cons_of_neg hd, List.reverse_cons, List.reverse_reverse]

theorem trim_eq_self_snoc (c : Char) (mid : List Char) (d : Char)
    (hc : isRustWhitespace c = false) (hd : isRustWhitespace d = false) :
    trim (c :: mid ++ [d]) = c :: mid ++ [d] := by
  show trimRight (trimLeft (c :: mid ++ [d])) = c :: mid ++ [d]
  rw [List.cons_append, trimLeft_cons_of_neg hc, ← List.cons_append]
  exact trimRight_snoc (c :: mid) d hd

theorem trimRight_prefix_decomp (l : List Char) :
    ∃ suf, l = trimRight l ++ suf := by
  refine ⟨(l.reverse.takeWhile isRustWhitespace).reverse, ?_⟩
  conv_lhs => rw [← List.reverse_reverse l,
    ← List.takeWhile_append_dropWhile isRustWhitespace l.reverse]
  rw [List.reverse_append]
  rfl

theorem trim_idem (l : List Char) : trim (trim l) = trim l := by
  cases h : trim l with
  | nil => rfl
  | cons c t =>
    obtain ⟨suf, hsuf⟩ := trimRight_prefix_decomp (trimLeft l)
    have h2 : trimRight (trimLeft l) = c :: t := h
    rw [h2] at hsuf
    have hTL : (trimLeft l : List Char) = c :: (t ++ suf) := by simpa using hsuf
    have hTL' : l.dropWhile isRustWhitespace = c :: (t ++ suf) := hTL
    have hc : isRustWhitespace c = false := head_false_of_dropWhile hTL'
    have hrev : (trim l).reverse =
        (trimLeft l).reverse.dropWhile isRustWhitespace := by
      show (trimRight (trimLeft l)).reverse = _
      unfold trimRight
      rw [List.reverse_reverse]
    cases hr : (c :: t).reverse with
    | nil => simp at hr
    | cons d t' =>
      have hd : isRustWhitespace d = false := by
        apply head_false_of_dropWhile (l := (trimLeft l).reverse)
        rw [← hrev, h, hr]
      show trimRight (trimLeft (c :: t)) = c :: t
      rw [trimLeft_cons_of_neg hc]
      exact trimRight_of_reverse_cons hr hd

/-! Lemmas about `normalize_ago` and the byte-split index. -/

theorem expand_unit_eq_none {u : List Char}
    (h : u ∉ ["s".data, "m".data, "h".data, "d".data, "w".data]) :
    expand_unit u = none := by
  simp only [List.mem_cons, List.not_mem_nil, or_false, not_or] at h
  obtain ⟨h1, h2, h3, h4, h5⟩ := h
  simp [expand_unit, h1, h2, h3, h4, h5]

theorem expand_unit_mem {u ex : List Char} (h : expand_unit u = some ex) :
    ex ∈ ["seconds".data, "minutes".data, "hours".data, "days".data,
      "weeks".data] := by
  unfold expand_unit at h
  split_ifs at h <;> simp_all

theorem normalize_ago_trim (s : List Char) :
    normalize_ago (trim s) = normalize_ago s := by
  simp only [normalize_ago, trim_idem]

theorem normalize_ago_cases (s : List Char) :
    normalize_ago s = trim s ∨
    ∃ ex, ex ∈ ["seconds".data, "minutes".data, "hours".data, "days".data,
        "weeks".data] ∧
      (trim s).takeWhile isAsciiDigit ≠ [] ∧
      normalize_ago s = (trim s).takeWhile isAsciiDigit ++ ' ' :: ex := by
  simp only [normalize_ago]
  by_cases h1 : trim s = []
  · left
    rw [if_pos h1]
  · rw [if_neg h1]
    by_cases h2 : (trim s).takeWhile isAsciiDigit = [] ∨
        (trim s).dropWhile isAsciiDigit = []
    · left
      rw [if_pos h2]
    · rw [if_neg h2]
      cases hexp : expand_unit ((trim s).dropWhile isAsciiDigit) with
      | none => exact Or.inl rfl
      | some ex =>
        right
        exact ⟨ex, expand_unit_mem hexp,
          fun hh => h2 (Or.inl hh), rfl⟩

theorem ends_in_s {ex : List Char}
    (hex : ex ∈ ["seconds".data, "minutes".data, "hours".data, "days".data,
      "weeks".data]) : ∃ e, ex = e ++ ['s'] := by
  fin_cases hex
  · exact ⟨"second".data, by decide⟩
  · exact ⟨"minute".data, by decide⟩
  · exact ⟨"hour".data, by decide⟩
  · exact ⟨"day".data, by decide⟩
  · exact ⟨"week".data, by decide⟩

theorem expand_unit_space_cons {ex : List Char}
    (hex : ex ∈ ["seconds".data, "minutes".data, "hours".data, "days".data,
      "weeks".data]) : expand_unit (' ' :: ex) = none := by
  fin_cases hex <;> decide

theorem normalize_ago_expanded_fixed (number ex : List Char)
    (hne : number ≠ []) (hdig : ∀ c ∈ number, isAsciiDigit c = true)
    (hex : ex ∈ ["seconds".data, "minutes".data, "hours".data, "days".data,
      "weeks".data]) :
    normalize_ago (number ++ ' ' :: ex) = number ++ ' ' :: ex := by
  obtain ⟨n, nt, rfl⟩ := List.exists_cons_of_ne_nil hne
  obtain ⟨e, he⟩ := ends_in_s hex
  have hn_ws : isRustWhitespace n = false :=
    digit_not_ws (hdig n (List.mem_cons_self n nt))
  have htrim : trim ((n :: nt) ++ ' ' :: ex) = (n :: nt) ++ ' ' :: ex := by
    have hshape : (n :: nt) ++ ' ' :: ex = n :: (nt ++ ' ' :: e) ++ ['s'] := by
      rw [he]
      simp
    rw [hshape]
    exact trim_eq_self_snoc n (nt ++ ' ' :: e) 's' hn_ws (by decide)
  have hsp : isAsciiDigit ' ' = false := by decide
  have htake : ((n :: nt) ++ ' ' :: ex).takeWhile isAsciiDigit = n :: nt := by
    rw [takeWhile_append_all hdig, List.takeWhile_cons, if_neg (by simp [hsp]),
      List.append_nil]
  have hdrop : ((n :: nt) ++ ' ' :: ex).dropWhile isAsciiDigit = ' ' :: ex := by
    rw [dropWhile_append_all hdig]
    exact dropWhile_cons_of_neg hsp
  have hexp : expand_unit (' ' :: ex) = none := expand_unit_space_cons hex
  simp only [normalize_ago, htrim, htake, hdrop, hexp]
  simp

theorem utf8Len_append (l1 l2 : List Char) :
    utf8Len (l1 ++ l2) = utf8Len l1 + utf8Len l2 := by
  simp [utf8Len, List.sum_append]

theorem byteSplitIdx_eq (l : List Char) :
    byteSplitIdx l = utf8Len (l.takeWhile isAsciiDigit) := by
  induction l with
  | nil => rfl
  | cons c t ih =>
    by_cases h : isAsciiDigit c = true
    · simp [byteSplitIdx, List.takeWhile_cons, h, utf8Len, ih]
    · simp [byteSplitIdx, List.takeWhile_cons, h, utf8Len]

/-- Unfolding of `run` once the capture and lookup invocations both
succeed, decode, and yield a non-empty trimmed target: the result is
determined by the mode and the checkout status, and the trace is the two
lookups, the three report lines, and (when mutating) the blank line
followed by the checkout invocation. -/
theorem run_resolved (git : Git) (ago : List Char) (printOnly : Bool)
    (headRaw outRaw : List Char)
    (h1 : git.revParse.success = true)
    (h2 : git.revParse.stdout = some headRaw)
    (h3 : (git.revList (rev_list_args ago)).success = true)
    (h4 : (git.revList (rev_list_args ago)).stdout = some outRaw)
    (h5 : trim outRaw ≠ []) :
    run git ago printOnly =
      ((if printOnly then .ok () else
        if git.checkoutOk (checkout_args (trim outRaw)) then .ok ()
        else .error .checkoutFailed),
       [.execRevParse, .execRevList (rev_list_args ago),
        .printLine ("Current HEAD: ".data ++ trim headRaw),
        .printLine ("Target commit: ".data ++ trim outRaw),
        .printLine ("To return: git checkout ".data ++ trim headRaw)] ++
       (if printOnly then [] else
        [.printLine [], .execCheckout (checkout_args (trim outRaw))])) := by
  by_cases hp : printOnly <;>
    by_cases hk : git.checkoutOk (checkout_args (trim outRaw)) <;>
      simp [run, current_head, h1, h2, h3, h4, h5, hp, hk]

end CheckoutAgo

open CheckoutAgo

/-! Claim theorems. -/

/-- Claim C1: for every input of the form digits-then-unit-letter with a
non-empty run of ASCII digits and unit one of `s,m,h,d,w`, `normalize_ago`
returns the digits, a space, and the expanded unit word (s→seconds,
m→minutes, h→hours, d→days, w→weeks). -/
theorem C1_normalize_shorthand (digits : List Char) (u : Char) (ex : List Char)
    (hne : digits ≠ []) (hdig : ∀ c ∈ digits, isAsciiDigit c = true)
    (hu : (u, ex) ∈ [('s', "seconds".data), ('m', "minutes".data),
      ('h', "hours".data), ('d', "days".data), ('w', "weeks".data)]) :
    normalize_ago (digits ++ [u]) = digits ++ ' ' :: ex := by
  have hu_not_dig : isAsciiDigit u = false := by fin_cases hu <;> decide
  have hu_not_ws : isRustWhitespace u = false := by fin_cases hu <;> decide
  obtain ⟨n, nt, rfl⟩ := List.exists_cons_of_ne_nil hne
  have hn_ws : isRustWhitespace n = false :=
    digit_not_ws (hdig n (List.mem_cons_self n nt))
  have htrim : trim ((n :: nt) ++ [u]) = (n :: nt) ++ [u] := by
    have := trim_eq_self_snoc n nt u hn_ws hu_not_ws
    simpa using this
  have htake : ((n :: nt) ++ [u]).takeWhile isAsciiDigit = n :: nt := by
    rw [takeWhile_append_all hdig, List.takeWhile_cons, if_neg (by simp [hu_not_dig]),
      List.append_nil]
  have hdrop : ((n :: nt) ++ [u]).dropWhile isAsciiDigit = [u] := by
    rw [dropWhile_append_all hdig]
    exact dropWhile_cons_of_neg hu_not_dig
  have hexp : expand_unit [u] = some ex := by fin_cases hu <;> decide
  simp only [normalize_ago, htrim, htake, hdrop, hexp]
  simp

/-- Claim C1 witness: the shorthand theorem instantiated at `2d`,
giving `2 days`. -/
theorem C1_normalize_shorthand_witness :
    "2".data ≠ [] ∧ normalize_ago ("2".data ++ ['d']) = "2".data ++ ' ' :: "days".data :=
  ⟨by decide, C1_normalize_shorthand "2".data 'd' "days".data (by decide)
    (by decide) (by decide)⟩

/-- Claim C2: for every input that is not recognized shorthand — trimmed
empty, all digits, no leading digit, or remainder after the digits not one
of the five single-letter units — `normalize_ago` returns the trimmed
input unchanged. -/
theorem C2_normalize_passthrough (s : List Char)
    (h : trim s = [] ∨ (trim s).takeWhile isAsciiDigit = [] ∨
      (trim s).dropWhile isAsciiDigit = [] ∨
      (trim s).dropWhile isAsciiDigit ∉
        ["s".data, "m".data, "h".data, "d".data, "w".data]) :
    normalize_ago s = trim s := by
  simp only [normalize_ago]
  by_cases h1 : trim s = []
  · rw [if_pos h1]
  · rw [if_neg h1]
    by_cases h2 : (trim s).takeWhile isAsciiDigit = [] ∨
        (trim s).dropWhile isAsciiDigit = []
    · rw [if_pos h2]
    · rw [if_neg h2]
      rcases h with h | h | h | h
      · exact absurd h h1
      · exact absurd (Or.inl h) h2
      · exact absurd (Or.inr h) h2
      · rw [expand_unit_eq_none h]

/-- Claim C2 witness: the passthrough theorem instantiated at `10x`. -/
theorem C2_normalize_passthrough_witness :
    (trim "10x".data = [] ∨ (trim "10x".data).takeWhile isAsciiDigit = [] ∨
      (trim "10x".data).dropWhile isAsciiDigit = [] ∨
      (trim "10x".data).dropWhile isAsciiDigit ∉
        ["s".data, "m".data, "h".data, "d".data, "w".data]) ∧
    normalize_ago "10x".data = trim "10x".data :=
  ⟨by decide, C2_normalize_passthrough "10x".data (by decide)⟩

/-- Claim C3: `rev_list_args` always returns the five-element list
`rev-list`, `-n`, `1`, `--before=<normalized> ago`, `HEAD`; on `2 days`
and `2d` it yields `--before=2 days ago`, and on the empty string the
fourth element is exactly `--before= ago`. -/
theorem C3_rev_list_args :
    (∀ ago, rev_list_args ago =
      ["rev-list".data, "-n".data, "1".data,
       "--before=".data ++ normalize_ago ago ++ " ago".data, "HEAD".data]) ∧
    rev_list_args "2 days".data =
      ["rev-list".data, "-n".data, "1".data, "--before=2 days ago".data,
       "HEAD".data] ∧
    rev_list_args "2d".data =
      ["rev-list".data, "-n".data, "1".data, "--before=2 days ago".data,
       "HEAD".data] ∧
    (rev_list_args "".data)[3]? = some "--before= ago".data :=
  ⟨fun _ => rfl, by decide, by decide, by decide⟩

/-- Claim C4: `checkout_args` always returns the two-element list
`checkout`, revision; in particular on `abc123`. -/
theorem C4_checkout_args :
    (∀ r, checkout_args r = ["checkout".data, r]) ∧
    checkout_args "abc123".data = ["checkout".data, "abc123".data] :=
  ⟨fun _ => rfl, rfl⟩

/-- Claim C9: the byte index at which `normalize_ago` splits the trimmed
input (first non-ASCII-digit character, or total length) is the byte
length of the ASCII-digit prefix, is always a character boundary, and
never exceeds the total byte length — so the split cannot panic and the
function is total. -/
theorem C9_split_boundary (input : List Char) :
    byteSplitIdx (trim input) =
      utf8Len ((trim input).takeWhile isAsciiDigit) ∧
    isCharBoundary (trim input) (byteSplitIdx (trim input)) ∧
    byteSplitIdx (trim input) ≤ utf8Len (trim input) := by
  refine ⟨byteSplitIdx_eq _,
    ⟨(trim input).takeWhile isAsciiDigit, (trim input).dropWhile isAsciiDigit,
      (List.takeWhile_append_dropWhile _ _).symm, (byteSplitIdx_eq _).symm⟩, ?_⟩
  rw [byteSplitIdx_eq]
  conv_rhs => rw [← List.takeWhile_append_dropWhile isAsciiDigit (trim input)]
  rw [utf8Len_append]
  exact Nat.le_add_right _ _

/-- Claim C10: `normalize_ago` is idempotent — every output is a fixed
point. -/
theorem C10_normalize_idempotent (s : List Char) :
    normalize_ago (normalize_ago s) = normalize_ago s := by
  rcases normalize_ago_cases s with h | ⟨ex, hex, hne, h⟩
  · rw [h, normalize_ago_trim]
    exact h
  · rw [h]
    exact normalize_ago_expanded_fixed _ ex hne
      (fun c hc => List.mem_takeWhile_imp hc) hex

/-- Claim C5: when the capture succeeds and the revision lookup exits
successfully but its output is empty after trimming, `run` fails with the
not-found error, no checkout invocation appears in the trace, and the
process exits 1 printing the diagnostic with its `error: ` prefix. -/
theorem C5_lookup_empty (git : Git) (ago : List Char) (printOnly : Bool)
    (headRaw outRaw : List Char)
    (h1 : git.revParse.success = true)
    (h2 : git.revParse.stdout = some headRaw)
    (h3 : (git.revList (rev_list_args ago)).success = true)
    (h4 : (git.revList (rev_list_args ago)).stdout = some outRaw)
    (h5 : trim outRaw = []) :
    (run git ago printOnly).1 = .error .notFound ∧
    (∀ a, Event.execCheckout a ∉ (run git ago printOnly).2) ∧
    mainExit git ago printOnly =
      (1, some "error: no commit found before the given time".data) := by
  have hrun : run git ago printOnly =
      (.error .notFound, [.execRevParse, .execRevList (rev_list_args ago)]) := by
    simp [run, current_head, h1, h2, h3, h4, h5]
  have hmsg : "error: ".data ++ errMsg .notFound =
      "error: no commit found before the given time".data := by decide
  refine ⟨by rw [hrun], fun a => by rw [hrun]; simp, ?_⟩
  have hm : mainExit git ago printOnly =
      (1, some ("error: ".data ++ errMsg .notFound)) := by
    simp [mainExit, hrun]
  rw [hm, hmsg]

/-- Claim C5 witness: the empty-lookup theorem instantiated at the
concrete oracle `gitEmptyLookup`. -/
theorem C5_lookup_empty_witness :
    trim ([] : List Char) = [] ∧
    (run gitEmptyLookup "2d".data false).1 = .error .notFound ∧
    mainExit gitEmptyLookup "2d".data false =
      (1, some "error: no commit found before the given time".data) :=
  ⟨rfl,
    (C5_lookup_empty gitEmptyLookup "2d".data false "abc".data [] rfl rfl rfl
      rfl rfl).1,
    (C5_lookup_empty gitEmptyLookup "2d".data false "abc".data [] rfl rfl rfl
      rfl rfl).2.2⟩

/-- Claim C6: in dry-run mode with capture and lookup both succeeding
with non-empty trimmed output, `run` succeeds, its trace is exactly the
two lookups plus the three report lines — no checkout invocation — and
the process exits 0. -/
theorem C6_dry_run (git : Git) (ago : List Char) (headRaw outRaw : List Char)
    (h1 : git.revParse.success = true)
    (h2 : git.revParse.stdout = some headRaw)
    (h3 : (git.revList (rev_list_args ago)).success = true)
    (h4 : (git.revList (rev_list_args ago)).stdout = some outRaw)
    (h5 : trim outRaw ≠ []) (h6 : trim headRaw ≠ []) :
    run git ago true =
      (.ok (), [.execRevParse, .execRevList (rev_list_args ago),
        .printLine ("Current HEAD: ".data ++ trim headRaw),
        .printLine ("Target commit: ".data ++ trim outRaw),
        .printLine ("To return: git checkout ".data ++ trim headRaw)]) ∧
    (∀ a, Event.execCheckout a ∉ (run git ago true).2) ∧
    mainExit git ago true = (0, none) := by
  have hrun := run_resolved git ago true headRaw outRaw h1 h2 h3 h4 h5
  simp only [if_pos rfl, List.append_nil] at hrun
  exact ⟨hrun, fun a => by rw [hrun]; simp, by simp [mainExit, hrun]⟩

/-- Claim C6 witness: the dry-run theorem instantiated at the concrete
oracle `gitFound`. -/
theorem C6_dry_run_witness :
    trim "def0".data ≠ [] ∧ mainExit gitFound "2d".data true = (0, none) :=
  ⟨by decide,
    (C6_dry_run gitFound "2d".data "abc".data "def0".data rfl rfl rfl rfl
      (by decide) (by decide)).2.2⟩

/-- Claim C7: in mutating mode, when capture and lookup succeed but the
checkout invocation exits non-zero, `run` fails with the checkout
execution failure and the process exits 1, the trace showing the three
report lines (and the blank line) before the checkout invocation. -/
theorem C7_checkout_fails (git : Git) (ago : List Char)
    (headRaw outRaw : List Char)
    (h1 : git.revParse.success = true)
    (h2 : git.revParse.stdout = some headRaw)
    (h3 : (git.revList (rev_list_args ago)).success = true)
    (h4 : (git.revList (rev_list_args ago)).stdout = some outRaw)
    (h5 : trim outRaw ≠ [])
    (h6 : git.checkoutOk (checkout_args (trim outRaw)) = false) :
    run git ago false =
      (.error .checkoutFailed,
       [.execRevParse, .execRevList (rev_list_args ago),
        .printLine ("Current HEAD: ".data ++ trim headRaw),
        .printLine ("Target commit: ".data ++ trim outRaw),
        .printLine ("To return: git checkout ".data ++ trim headRaw),
        .printLine [], .execCheckout (checkout_args (trim outRaw))]) ∧
    mainExit git ago false = (1, some "error: git checkout failed".data) := by
  have hrun := run_resolved git ago false headRaw outRaw h1 h2 h3 h4 h5
  simp only [h6, Bool.false_eq_true, if_false, if_neg (Bool.false_ne_true)] at hrun
  have hmsg : "error: ".data ++ errMsg .checkoutFailed =
      "error: git checkout failed".data := by decide
  refine ⟨by rw [hrun]; rfl, ?_⟩
  have hm : mainExit git ago false =
      (1, some ("error: ".data ++ errMsg .checkoutFailed)) := by
    simp [mainExit, hrun]
  rw [hm, hmsg]

/-- Claim C7 witness: the checkout-failure theorem instantiated at the
concrete oracle `gitCheckoutFails`. -/
theorem C7_checkout_fails_witness :
    gitCheckoutFails.checkoutOk (checkout_args (trim "def0".data)) = false ∧
    mainExit gitCheckoutFails "2d".data false =
      (1, some "error: git checkout failed".data) :=
  ⟨rfl,
    (C7_checkout_fails gitCheckoutFails "2d".data "abc".data "def0".data rfl
      rfl rfl rfl (by decide) rfl).2⟩

/-- Claim C8: on every successful resolution the trace shows exactly the
three report lines in order — current position, target, and a return
command referencing the originally captured position — followed, only
when mutating, by one blank line and then the checkout invocation. -/
theorem C8_report_lines (git : Git) (ago : List Char) (printOnly : Bool)
    (headRaw outRaw : List Char)
    (h1 : git.revParse.success = true)
    (h2 : git.revParse.stdout = some headRaw)
    (h3 : (git.revList (rev_list_args ago)).success = true)
    (h4 : (git.revList (rev_list_args ago)).stdout = some outRaw)
    (h5 : trim outRaw ≠ []) :
    (run git ago printOnly).2 =
      [.execRevParse, .execRevList (rev_list_args ago),
       .printLine ("Current HEAD: ".data ++ trim headRaw),
       .printLine ("Target commit: ".data ++ trim outRaw),
       .printLine ("To return: git checkout ".data ++ trim headRaw)] ++
      (if printOnly then [] else
       [.printLine [], .execCheckout (checkout_args (trim outRaw))]) := by
  rw [run_resolved git ago printOnly headRaw outRaw h1 h2 h3 h4 h5]

/-- Claim C8 witness: the report-format theorem instantiated at the
concrete oracle `gitFound` in mutating mode. -/
theorem C8_report_lines_witness :
    (run gitFound "2d".data false).2 =
      [.execRevParse, .execRevList (rev_list_args "2d".data),
       .printLine ("Current HEAD: ".data ++ trim "abc".data),
       .printLine ("Target commit: ".data ++ trim "def0".data),
       .printLine ("To return: git checkout ".data ++ trim "abc".data)] ++
      (if false then [] else
       [.printLine [], .execCheckout (checkout_args (trim "def0".data))]) :=
  C8_report_lines gitFound "2d".data false "abc".data "def0".data rfl rfl rfl
    rfl (by decide)
